import Mathlib

/-!
Verification of the tarpc wire-framing codec (`src/protocol.rs`).

The codec converts `(identifier, typed message)` pairs to and from
length-prefixed binary frames on a byte stream:

  identifier (8 bytes, big-endian) | payload length (8 bytes, big-endian) | payload

Bytes are modelled as natural numbers (each produced byte is `< 256`), buffers
as `List Nat`.  The `u64` fields of the Rust code are naturals carried with
explicit `< 2^64` bounds where a round-trip through the 8-byte big-endian
encoding matters.  The serialization collaborator (`bincode` in the source) is
external to this repository; it is modelled per its interface as used by the
code: `serialized_size`, a total `serialize`, and a fallible `deserialize`
(`Option` standing for `Result<Decode, bincode::Error>`; `none` is a
deserialization failure).
-/

namespace Tarpc

/-- Big-endian encoding of a `u64` value, as written by
`buf.write_u64::<BigEndian>(n)`: 8 bytes, most significant first. -/
def u64Bytes (n : Nat) : List Nat :=
  [n / 2 ^ 56 % 256, n / 2 ^ 48 % 256, n / 2 ^ 40 % 256, n / 2 ^ 32 % 256,
   n / 2 ^ 24 % 256, n / 2 ^ 16 % 256, n / 2 ^ 8 % 256, n % 256]

/-- Big-endian decoding of a byte list, as done by
`Cursor::new(buf).read_u64::<BigEndian>()` on an 8-byte slice. -/
def readU64 (bs : List Nat) : Nat :=
  bs.foldl (fun acc b => acc * 256 + b) 0

/-- The decoder state machine (`enum CodecState` in the source):
`Id` awaits the 8 identifier bytes, `Len` awaits the 8 length bytes,
`Payload` awaits `len` payload bytes. -/
inductive CodecState where
  | id : CodecState
  | len (id : Nat) : CodecState
  | payload (id : Nat) (len : Nat) : CodecState
  deriving DecidableEq

/-- The only stream-level error the codec produces: the `io::Error` built by
`too_big(payload_size, max_payload_size)`.  On the encode path it is the
SizeExceeded failure, on the decode path the FrameTooLarge failure; the source
uses one constructor (`io::ErrorKind::InvalidData`) for both. -/
inductive CodecError where
  | tooBig (payload_size : Nat) (max_payload_size : Nat) : CodecError
  deriving DecidableEq

/-- The serialization collaborator, per the interface the codec consumes:
`bincode::serialized_size`, `bincode::serialize_into` (writes
`serialize message`), and `bincode::deserialize_from` (`none` models
`Err(bincode::Error)`). -/
structure Serializer (α : Type) where
  serialize : α → List Nat
  serializedSize : α → Nat
  deserialize : List Nat → Option α

/-- The complete observable outcome of one `decode` call on a `&mut` codec and
a `&mut` buffer: the returned `Result<Option<(RequestId, Result<Decode, _>)>>`,
the codec state left behind, and the bytes left in the buffer. -/
structure DecodeOutcome (α : Type) where
  result : Except CodecError (Option (Nat × Option α))
  state : CodecState
  buf : List Nat

/-- `Codec::encode`: appends the 8-byte big-endian identifier, computes the
serialized size, fails with SizeExceeded if it exceeds the maximum, and
otherwise appends the 8-byte big-endian length followed by the serialized
payload.  Returns the call's result together with the destination buffer as
the call leaves it (the identifier bytes are appended before the size check
runs, exactly as in the source). -/
def encode (S : Serializer α) (max_payload_size : Nat) (id : Nat) (message : α)
    (buf : List Nat) : Except CodecError Unit × List Nat :=
  let buf := buf ++ u64Bytes id
  let payload_size := S.serializedSize message
  if payload_size > max_payload_size then
    (.error (.tooBig payload_size max_payload_size), buf)
  else
    (.ok (), buf ++ u64Bytes payload_size ++ S.serialize message)

/-- The `Payload { id, len }` arm of the `decode` loop: with fewer than `len`
bytes available it returns `None` consuming nothing; otherwise it drains
exactly `len` bytes, deserializes them, resets the state to `Id`
unconditionally, and returns `(id, result)`. -/
def decodePayload (S : Serializer α) (id len : Nat) (buf : List Nat) :
    DecodeOutcome α :=
  if buf.length < len then ⟨.ok none, .payload id len, buf⟩
  else ⟨.ok (some (id, S.deserialize (buf.take len))), .id, buf.drop len⟩

/-- The `Len { id }` arm of the `decode` loop: with fewer than 8 bytes it
returns `None` consuming nothing; otherwise it drains 8 bytes, parses the
big-endian length, fails with FrameTooLarge if it exceeds the maximum (the
state stays `Len { id }`, the 8 bytes stay drained), and otherwise continues
into the payload arm. -/
def decodeLen (S : Serializer α) (max_payload_size : Nat) (id : Nat)
    (buf : List Nat) : DecodeOutcome α :=
  if buf.length < 8 then ⟨.ok none, .len id, buf⟩
  else
    let len := readU64 (buf.take 8)
    if len > max_payload_size then
      ⟨.error (.tooBig len max_payload_size), .len id, buf.drop 8⟩
    else decodePayload S id len (buf.drop 8)

/-- The `Id` arm of the `decode` loop: with fewer than 8 bytes it returns
`None` consuming nothing; otherwise it drains 8 bytes, parses the big-endian
identifier, and continues into the length arm. -/
def decodeId (S : Serializer α) (max_payload_size : Nat) (buf : List Nat) :
    DecodeOutcome α :=
  if buf.length < 8 then ⟨.ok none, .id, buf⟩
  else decodeLen S max_payload_size (readU64 (buf.take 8)) (buf.drop 8)

/-- `Codec::decode`: the `loop` over state transitions.  Each arm either
returns out of the loop or moves to the next phase on the drained buffer, so
the loop is the chain `Id → Len → Payload` of the three arms above. -/
def decode (S : Serializer α) (max_payload_size : Nat) :
    CodecState → List Nat → DecodeOutcome α
  | .id, buf => decodeId S max_payload_size buf
  | .len id, buf => decodeLen S max_payload_size id buf
  | .payload id len, buf => decodePayload S id len buf

/-- A caller that appends arriving chunks to the inbound buffer and calls
`decode` after each chunk, stopping at the first call that returns a frame or
an error.  Models the incremental-feed usage of the codec. -/
def feedChunks (S : Serializer α) (max_payload_size : Nat) :
    CodecState → List Nat → List (List Nat) → DecodeOutcome α
  | st, buf, [] => ⟨.ok none, st, buf⟩
  | st, buf, chunk :: rest =>
    match decode S max_payload_size st (buf ++ chunk) with
    | ⟨.ok none, st1, buf1⟩ => feedChunks S max_payload_size st1 buf1 rest
    | out => out

/-- Whether the buffer holds fewer bytes than the decoder's current phase
requires: fewer than 8 in `Id` or `Len`, fewer than `len` in `Payload`. -/
def needsMoreInput : CodecState → List Nat → Bool
  | .id, buf => buf.length < 8
  | .len _, buf => buf.length < 8
  | .payload _ len, buf => buf.length < len

/-- A serializer over byte lists whose serialized size is the list's length;
used to exercise the codec at concrete sizes. -/
def listSerializer : Serializer (List Nat) where
  serialize := fun l => l.map (· % 256)
  serializedSize := fun l => l.length
  deserialize := fun bs => some bs

/-- A serializer for `Unit` with an empty serialization; any non-empty payload
fails to deserialize, which exercises the per-frame failure path. -/
def unitSerializer : Serializer Unit where
  serialize := fun _ => []
  serializedSize := fun _ => 0
  deserialize := fun bs => match bs with | [] => some () | _ => none

/-! ### Basic facts about the byte-level encoding -/

theorem u64Bytes_length (n : Nat) : (u64Bytes n).length = 8 := rfl

theorem readU64_u64Bytes {n : Nat} (h : n < 2 ^ 64) : readU64 (u64Bytes n) = n := by
  simp only [u64Bytes, readU64, List.foldl]
  omega

/-- Decoding a fresh, completely framed message: the identifier and length
parse back, the payload is handed to the deserializer, the state returns to
`Id`, and exactly the frame's bytes are consumed. -/
theorem decode_complete_frame (S : Serializer α) {max_payload_size i L : Nat}
    {p rest : List Nat} (hi : i < 2 ^ 64) (hL : L < 2 ^ 64)
    (hmax : L ≤ max_payload_size) (hp : p.length = L) :
    decode S max_payload_size .id (u64Bytes i ++ (u64Bytes L ++ (p ++ rest))) =
      ⟨.ok (some (i, S.deserialize p)), .id, rest⟩ := by
  have h8i : (u64Bytes i).length = 8 := rfl
  have h8L : (u64Bytes L).length = 8 := rfl
  simp only [decode, decodeId, List.length_append, h8i]
  rw [if_neg (by omega), List.take_left' h8i, List.drop_left' h8i,
    readU64_u64Bytes hi]
  simp only [decodeLen, List.length_append, h8L]
  rw [if_neg (by omega), List.take_left' h8L, List.drop_left' h8L,
    readU64_u64Bytes hL, if_neg (by omega)]
  simp only [decodePayload, List.length_append, hp]
  rw [if_neg (by omega), List.take_left' hp, List.drop_left' hp]

/-! ### Incremental behaviour: appending bytes never invalidates earlier work

If a `decode` call returns `None` ("no frame yet"), running the codec from the
state and buffer it left behind, with extra bytes appended, is the same as
running the original call with the extra bytes already present.  If a call
returns a frame or an error, extra bytes appended to the input are simply left
over afterwards. -/

theorem decodePayload_none_extend (S : Serializer α) (max_payload_size : Nat)
    {id len : Nat} {buf : List Nat} {st' : CodecState} {buf' : List Nat}
    (h : decodePayload S id len buf = ⟨.ok none, st', buf'⟩)
    (extra : List Nat) :
    decode S max_payload_size st' (buf' ++ extra) =
      decodePayload S id len (buf ++ extra) := by
  by_cases hlt : buf.length < len
  · rw [decodePayload, if_pos hlt] at h
    injection h with h1 h2 h3
    subst h2; subst h3
    rfl
  · rw [decodePayload, if_neg hlt] at h
    simp at h

theorem decodeLen_none_extend (S : Serializer α) (max_payload_size : Nat)
    {id : Nat} {buf : List Nat} {st' : CodecState} {buf' : List Nat}
    (h : decodeLen S max_payload_size id buf = ⟨.ok none, st', buf'⟩)
    (extra : List Nat) :
    decode S max_payload_size st' (buf' ++ extra) =
      decodeLen S max_payload_size id (buf ++ extra) := by
  by_cases hlt : buf.length < 8
  · rw [decodeLen, if_pos hlt] at h
    injection h with h1 h2 h3
    subst h2; subst h3
    rfl
  · simp only [decodeLen, if_neg hlt] at h
    have h8 : ¬ (buf ++ extra).length < 8 := by
      simp only [List.length_append]; omega
    simp only [decodeLen, if_neg h8,
      List.take_append_of_le_length (show 8 ≤ buf.length by omega),
      List.drop_append_of_le_length (show 8 ≤ buf.length by omega)]
    by_cases hbig : readU64 (buf.take 8) > max_payload_size
    · simp only [if_pos hbig] at h
      simp at h
    · simp only [if_neg hbig] at h ⊢
      exact decodePayload_none_extend S max_payload_size h extra

theorem decodeId_none_extend (S : Serializer α) (max_payload_size : Nat)
    {buf : List Nat} {st' : CodecState} {buf' : List Nat}
    (h : decodeId S max_payload_size buf = ⟨.ok none, st', buf'⟩)
    (extra : List Nat) :
    decode S max_payload_size st' (buf' ++ extra) =
      decodeId S max_payload_size (buf ++ extra) := by
  by_cases hlt : buf.length < 8
  · rw [decodeId, if_pos hlt] at h
    injection h with h1 h2 h3
    subst h2; subst h3
    rfl
  · simp only [decodeId, if_neg hlt] at h
    have h8 : ¬ (buf ++ extra).length < 8 := by
      simp only [List.length_append]; omega
    simp only [decodeId, if_neg h8,
      List.take_append_of_le_length (show 8 ≤ buf.length by omega),
      List.drop_append_of_le_length (show 8 ≤ buf.length by omega)]
    exact decodeLen_none_extend S max_payload_size h extra

theorem decode_none_extend (S : Serializer α) (max_payload_size : Nat)
    {st st' : CodecState} {buf buf' : List Nat}
    (h : decode S max_payload_size st buf = ⟨.ok none, st', buf'⟩)
    (extra : List Nat) :
    decode S max_payload_size st' (buf' ++ extra) =
      decode S max_payload_size st (buf ++ extra) := by
  cases st with
  | id => exact decodeId_none_extend S max_payload_size h extra
  | len id => exact decodeLen_none_extend S max_payload_size h extra
  | payload id len => exact decodePayload_none_extend S max_payload_size h extra

theorem decodePayload_done_extend (S : Serializer α)
    {id len : Nat} {buf : List Nat}
    {r : Except CodecError (Option (Nat × Option α))}
    {st' : CodecState} {buf' : List Nat}
    (h : decodePayload S id len buf = ⟨r, st', buf'⟩) (hr : r ≠ .ok none)
    (extra : List Nat) :
    decodePayload S id len (buf ++ extra) = ⟨r, st', buf' ++ extra⟩ := by
  by_cases hlt : buf.length < len
  · rw [decodePayload, if_pos hlt] at h
    injection h with h1 h2 h3
    exact absurd h1.symm hr
  · rw [decodePayload, if_neg hlt] at h
    injection h with h1 h2 h3
    subst h1; subst h2; subst h3
    rw [decodePayload,
      if_neg (show ¬ (buf ++ extra).length < len by
        simp only [List.length_append]; omega),
      List.take_append_of_le_length (by omega),
      List.drop_append_of_le_length (by omega)]

theorem decodeLen_done_extend (S : Serializer α) (max_payload_size : Nat)
    {id : Nat} {buf : List Nat}
    {r : Except CodecError (Option (Nat × Option α))}
    {st' : CodecState} {buf' : List Nat}
    (h : decodeLen S max_payload_size id buf = ⟨r, st', buf'⟩)
    (hr : r ≠ .ok none) (extra : List Nat) :
    decodeLen S max_payload_size id (buf ++ extra) = ⟨r, st', buf' ++ extra⟩ := by
  by_cases hlt : buf.length < 8
  · rw [decodeLen, if_pos hlt] at h
    injection h with h1 h2 h3
    exact absurd h1.symm hr
  · simp only [decodeLen, if_neg hlt] at h
    have h8 : ¬ (buf ++ extra).length < 8 := by
      simp only [List.length_append]; omega
    simp only [decodeLen, if_neg h8,
      List.take_append_of_le_length (show 8 ≤ buf.length by omega),
      List.drop_append_of_le_length (show 8 ≤ buf.length by omega)]
    by_cases hbig : readU64 (buf.take 8) > max_payload_size
    · simp only [if_pos hbig] at h ⊢
      injection h with h1 h2 h3
      subst h1; subst h2; subst h3
      rfl
    · simp only [if_neg hbig] at h ⊢
      exact decodePayload_done_extend S h hr extra

theorem decodeId_done_extend (S : Serializer α) (max_payload_size : Nat)
    {buf : List Nat}
    {r : Except CodecError (Option (Nat × Option α))}
    {st' : CodecState} {buf' : List Nat}
    (h : decodeId S max_payload_size buf = ⟨r, st', buf'⟩)
    (hr : r ≠ .ok none) (extra : List Nat) :
    decodeId S max_payload_size (buf ++ extra) = ⟨r, st', buf' ++ extra⟩ := by
  by_cases hlt : buf.length < 8
  · rw [decodeId, if_pos hlt] at h
    injection h with h1 h2 h3
    exact absurd h1.symm hr
  · simp only [decodeId, if_neg hlt] at h
    have h8 : ¬ (buf ++ extra).length < 8 := by
      simp only [List.length_append]; omega
    simp only [decodeId, if_neg h8,
      List.take_append_of_le_length (show 8 ≤ buf.length by omega),
      List.drop_append_of_le_length (show 8 ≤ buf.length by omega)]
    exact decodeLen_done_extend S max_payload_size h hr extra

theorem decode_done_extend (S : Serializer α) (max_payload_size : Nat)
    {st : CodecState} {buf : List Nat}
    {r : Except CodecError (Option (Nat × Option α))}
    {st' : CodecState} {buf' : List Nat}
    (h : decode S max_payload_size st buf = ⟨r, st', buf'⟩)
    (hr : r ≠ .ok none) (extra : List Nat) :
    decode S max_payload_size st (buf ++ extra) = ⟨r, st', buf' ++ extra⟩ := by
  cases st with
  | id => exact decodeId_done_extend S max_payload_size h hr extra
  | len id => exact decodeLen_done_extend S max_payload_size h hr extra
  | payload id len => exact decodePayload_done_extend S h hr extra

/-- Feeding the bytes of a stream chunk by chunk reaches the same frame that a
single `decode` call on all the bytes at once reaches, whenever that single
call returns a frame and drains the buffer. -/
theorem feedChunks_of_drained (S : Serializer α) (max_payload_size : Nat) :
    ∀ (chunks : List (List Nat)) (st : CodecState) (buf : List Nat)
      (f : Nat × Option α) (st2 : CodecState),
      chunks ≠ [] →
      decode S max_payload_size st (buf ++ chunks.flatten) =
        ⟨.ok (some f), st2, []⟩ →
      feedChunks S max_payload_size st buf chunks = ⟨.ok (some f), st2, []⟩ := by
  intro chunks
  induction chunks with
  | nil => intro st buf f st2 hne _; exact absurd rfl hne
  | cons c rest ih =>
    intro st buf f st2 _ h
    rw [List.flatten_cons, ← List.append_assoc] at h
    rcases hout : decode S max_payload_size st (buf ++ c) with ⟨r, st1, buf1⟩
    have hfeed : feedChunks S max_payload_size st buf (c :: rest) =
        match decode S max_payload_size st (buf ++ c) with
        | ⟨.ok none, st1, buf1⟩ => feedChunks S max_payload_size st1 buf1 rest
        | out => out := rfl
    rcases r with e | v
    · have hext := decode_done_extend S max_payload_size hout (by simp)
        rest.flatten
      rw [h] at hext
      simp at hext
    · rcases v with _ | g
      · have hext := decode_none_extend S max_payload_size hout rest.flatten
        rw [h] at hext
        rw [hfeed, hout]
        show feedChunks S max_payload_size st1 buf1 rest = _
        rcases rest with _ | ⟨c2, rest2⟩
        · simp only [List.flatten_nil, List.append_nil] at h
          rw [hout] at h
          simp at h
        · exact ih st1 buf1 f st2 (by simp) hext
      · have hext := decode_done_extend S max_payload_size hout (by simp)
          rest.flatten
        rw [h] at hext
        simp only [DecodeOutcome.mk.injEq, Except.ok.injEq, Option.some.injEq]
          at hext
        obtain ⟨hg, hst, hbuf⟩ := hext
        have hnil := List.append_eq_nil.mp hbuf.symm
        rw [hfeed, hout]
        show DecodeOutcome.mk (.ok (some g)) st1 buf1 = _
        rw [← hg, ← hst, hnil.1]

/-- Decoding a fresh frame whose declared length exceeds the maximum: the
identifier and length bytes are drained, the call fails with FrameTooLarge,
and the state is left in `Len { id }`. -/
theorem decode_too_large (S : Serializer α) {max_payload_size i L : Nat}
    {rest : List Nat} (hi : i < 2 ^ 64) (hL : L < 2 ^ 64)
    (hgt : L > max_payload_size) :
    decode S max_payload_size .id (u64Bytes i ++ (u64Bytes L ++ rest)) =
      ⟨.error (.tooBig L max_payload_size), .len i, rest⟩ := by
  have h8i : (u64Bytes i).length = 8 := rfl
  have h8L : (u64Bytes L).length = 8 := rfl
  simp only [decode, decodeId, List.length_append, h8i]
  rw [if_neg (by omega), List.take_left' h8i, List.drop_left' h8i,
    readU64_u64Bytes hi]
  simp only [decodeLen, List.length_append, h8L]
  rw [if_neg (by omega), List.take_left' h8L, List.drop_left' h8L,
    readU64_u64Bytes hL, if_pos (by omega)]

/-! ### The claims -/

/-- C1: for every message `m` whose serialized size is at most the configured
maximum and every identifier `i`, on a fresh codec, `encode i m` into an empty
buffer succeeds, and `decode` on the produced buffer yields exactly
`(i, successfully deserialized m)` leaving the buffer empty; and the same
holds when the whole experiment is repeated on a second fresh codec instance
(a fresh instance is `max_payload_size` paired with state `Id`, and both runs
are stated separately).  The serializer hypotheses are the collaborator
contract: the reported size is the serialized length and deserialization
inverts serialization. -/
theorem roundtrip_idempotent (S : Serializer α) (max_payload_size i : Nat)
    (m : α) (hsize : S.serializedSize m ≤ max_payload_size)
    (hcoh : (S.serialize m).length = S.serializedSize m)
    (hde : S.deserialize (S.serialize m) = some m)
    (hi : i < 2 ^ 64) (hmax : max_payload_size < 2 ^ 64) :
    ((encode S max_payload_size i m []).1 = .ok () ∧
      decode S max_payload_size .id (encode S max_payload_size i m []).2 =
        ⟨.ok (some (i, some m)), .id, []⟩) ∧
    ((encode S max_payload_size i m []).1 = .ok () ∧
      decode S max_payload_size .id (encode S max_payload_size i m []).2 =
        ⟨.ok (some (i, some m)), .id, []⟩) := by
  have henc : encode S max_payload_size i m [] =
      (.ok (), u64Bytes i ++ (u64Bytes (S.serializedSize m) ++
        (S.serialize m ++ []))) := by
    simp only [encode]
    rw [if_neg (by omega)]
    simp [List.append_assoc]
  have hdec := @decode_complete_frame α S max_payload_size i
    (S.serializedSize m) (S.serialize m) [] hi (by omega) hsize hcoh
  rw [hde] at hdec
  have h1 : (encode S max_payload_size i m []).1 = .ok () ∧
      decode S max_payload_size .id (encode S max_payload_size i m []).2 =
        ⟨.ok (some (i, some m)), .id, []⟩ := by
    rw [henc]
    exact ⟨rfl, hdec⟩
  exact ⟨h1, h1⟩

/-- Witness for C1 at a concrete input: identifier `4`, the `Unit` message,
maximum payload size 2000000. -/
theorem roundtrip_idempotent_witness :
    unitSerializer.serializedSize () ≤ 2000000 ∧
    ((encode unitSerializer 2000000 4 () []).1 = .ok () ∧
      decode unitSerializer 2000000 .id
          (encode unitSerializer 2000000 4 () []).2 =
        ⟨.ok (some (4, some ())), .id, []⟩) :=
  ⟨by decide,
    (roundtrip_idempotent unitSerializer 2000000 4 () (by decide) rfl rfl
      (by decide) (by decide)).1⟩

/-- C2: for every byte sequence forming one complete encoded frame and every
way of splitting it into chunks, feeding the chunks to `decode` across
successive calls yields, on the final successful call, the same
`(identifier, deserialize outcome)` pair that a single `decode` call on the
whole sequence yields (with the same final state and drained buffer). -/
theorem incremental_feed_equivalence (S : Serializer α) (max_payload_size : Nat)
    (chunks : List (List Nat)) (f : Nat × Option α) (st2 : CodecState)
    (hne : chunks ≠ [])
    (h : decode S max_payload_size .id chunks.flatten =
      ⟨.ok (some f), st2, []⟩) :
    feedChunks S max_payload_size .id [] chunks = ⟨.ok (some f), st2, []⟩ :=
  feedChunks_of_drained S max_payload_size chunks .id [] f st2 hne
    (by simpa using h)

/-- Witness for C2 at a concrete input: the 16-byte frame for identifier `1`
with an empty payload, fed one byte at a time. -/
theorem incremental_feed_equivalence_witness :
    (([[0], [0], [0], [0], [0], [0], [0], [1],
       [0], [0], [0], [0], [0], [0], [0], [0]] : List (List Nat)) ≠ [] ∧
      decode unitSerializer 24 .id
          ([[0], [0], [0], [0], [0], [0], [0], [1],
            [0], [0], [0], [0], [0], [0], [0], [0]] : List (List Nat)).flatten =
        ⟨.ok (some (1, some ())), .id, []⟩) ∧
    feedChunks unitSerializer 24 .id []
        [[0], [0], [0], [0], [0], [0], [0], [1],
         [0], [0], [0], [0], [0], [0], [0], [0]] =
      ⟨.ok (some (1, some ())), .id, []⟩ :=
  ⟨⟨by decide, rfl⟩,
    incremental_feed_equivalence unitSerializer 24 _ _ _ (by decide) rfl⟩

/-- C3: the size cap is enforced symmetrically and at the exact boundary:
encoding a message of serialized size exactly `max+1` fails with SizeExceeded,
decoding a frame whose declared length field is exactly `max+1` fails with
FrameTooLarge, and a message of exactly `max` bytes encodes successfully while
a frame declaring exactly `max` bytes (with its payload present) decodes
successfully. -/
theorem size_cap_boundary (S : Serializer α) (max_payload_size i : Nat)
    (m1 m2 : α) (buf payload rest rest2 : List Nat)
    (h1 : S.serializedSize m1 = max_payload_size + 1)
    (h2 : S.serializedSize m2 = max_payload_size)
    (hcoh2 : (S.serialize m2).length = S.serializedSize m2)
    (hp : payload.length = max_payload_size)
    (hi : i < 2 ^ 64) (hmax : max_payload_size + 1 < 2 ^ 64) :
    (encode S max_payload_size i m1 buf).1 =
      .error (.tooBig (max_payload_size + 1) max_payload_size) ∧
    decode S max_payload_size .id
        (u64Bytes i ++ (u64Bytes (max_payload_size + 1) ++ rest)) =
      ⟨.error (.tooBig (max_payload_size + 1) max_payload_size), .len i, rest⟩ ∧
    (encode S max_payload_size i m2 buf).1 = .ok () ∧
    decode S max_payload_size .id
        (u64Bytes i ++ (u64Bytes max_payload_size ++ (payload ++ rest2))) =
      ⟨.ok (some (i, S.deserialize payload)), .id, rest2⟩ := by
  refine ⟨?_, ?_, ?_, ?_⟩
  · simp only [encode, h1]
    rw [if_pos (by omega)]
  · exact decode_too_large S hi hmax (by omega)
  · simp only [encode, h2]
    rw [if_neg (by omega)]
  · exact decode_complete_frame S hi (by omega) (le_refl _) hp

/-- Witness for C3 at a concrete input: maximum 2, messages of sizes 3 and 2,
a declared length of 3 and a complete frame of declared length 2. -/
theorem size_cap_boundary_witness :
    listSerializer.serializedSize [0, 0, 0] = 2 + 1 ∧
    listSerializer.serializedSize [9, 9] = 2 ∧
    ((encode listSerializer 2 5 [0, 0, 0] []).1 = .error (.tooBig 3 2) ∧
      decode listSerializer 2 .id (u64Bytes 5 ++ (u64Bytes 3 ++ [4, 4])) =
        ⟨.error (.tooBig 3 2), .len 5, [4, 4]⟩ ∧
      (encode listSerializer 2 5 [9, 9] []).1 = .ok () ∧
      decode listSerializer 2 .id (u64Bytes 5 ++ (u64Bytes 2 ++ ([7, 7] ++ []))) =
        ⟨.ok (some (5, some [7, 7])), .id, []⟩) :=
  ⟨rfl, rfl,
    size_cap_boundary listSerializer 2 5 [0, 0, 0] [9, 9] [] [7, 7] [4, 4] []
      rfl rfl rfl rfl (by decide) (by decide)⟩

/-- C4: for every codec state and every input buffer holding fewer bytes than
the current phase requires, `decode` consumes nothing, changes no state, and
returns no frame; consequently a later call with the missing bytes appended
behaves exactly as a single call on the full input would, so retrying makes
monotonic progress with no double-consumption or loss. -/
theorem no_over_consumption (S : Serializer α) (max_payload_size : Nat)
    (st : CodecState) (buf : List Nat)
    (h : needsMoreInput st buf = true) :
    decode S max_payload_size st buf = ⟨.ok none, st, buf⟩ ∧
    ∀ extra : List Nat,
      decode S max_payload_size (decode S max_payload_size st buf).state
          ((decode S max_payload_size st buf).buf ++ extra) =
        decode S max_payload_size st (buf ++ extra) := by
  have h1 : decode S max_payload_size st buf = ⟨.ok none, st, buf⟩ := by
    cases st with
    | id =>
      simp only [needsMoreInput, decide_eq_true_eq] at h
      simp only [decode, decodeId]
      rw [if_pos h]
    | len id =>
      simp only [needsMoreInput, decide_eq_true_eq] at h
      simp only [decode, decodeLen]
      rw [if_pos h]
    | payload id len =>
      simp only [needsMoreInput, decide_eq_true_eq] at h
      simp only [decode, decodePayload]
      rw [if_pos h]
  refine ⟨h1, fun extra => ?_⟩
  rw [h1]

/-- Witness for C4 at a concrete input: the payload phase awaiting 5 bytes
with only 2 available. -/
theorem no_over_consumption_witness :
    needsMoreInput (.payload 3 5) [1, 2] = true ∧
    decode unitSerializer 24 (.payload 3 5) [1, 2] =
      ⟨.ok none, .payload 3 5, [1, 2]⟩ :=
  ⟨by decide, (no_over_consumption unitSerializer 24 (.payload 3 5) [1, 2]
    (by decide)).1⟩

/-- C5: a correctly framed payload whose bytes fail deserialization yields the
per-frame pair `(identifier, failure)` rather than a stream-level error, and
leaves the codec in `Id` with exactly the trailing bytes in the buffer, so any
subsequent complete frame there still decodes normally. -/
theorem deserialize_failure_isolation (S : Serializer α)
    (max_payload_size i L : Nat) (payload rest : List Nat)
    (hi : i < 2 ^ 64) (hL : L < 2 ^ 64) (hmax : L ≤ max_payload_size)
    (hp : payload.length = L) (hfail : S.deserialize payload = none) :
    decode S max_payload_size .id
        (u64Bytes i ++ (u64Bytes L ++ (payload ++ rest))) =
      ⟨.ok (some (i, none)), .id, rest⟩ ∧
    ∀ (i2 L2 : Nat) (p2 rest2 : List Nat), i2 < 2 ^ 64 → L2 < 2 ^ 64 →
      L2 ≤ max_payload_size → p2.length = L2 →
      rest = u64Bytes i2 ++ (u64Bytes L2 ++ (p2 ++ rest2)) →
      decode S max_payload_size .id rest =
        ⟨.ok (some (i2, S.deserialize p2)), .id, rest2⟩ := by
  constructor
  · have hdec := @decode_complete_frame α S max_payload_size i L payload rest
      hi hL hmax hp
    rw [hfail] at hdec
    exact hdec
  · intro i2 L2 p2 rest2 hi2 hL2 hmax2 hp2 hrest
    subst hrest
    exact decode_complete_frame S hi2 hL2 hmax2 hp2

/-- Witness for C5 at a concrete input: identifier `9` framing the 1-byte
payload `[7]`, which the `Unit` serializer rejects, followed by the complete
frame for identifier `2` with an empty payload. -/
theorem deserialize_failure_isolation_witness :
    unitSerializer.deserialize [7] = none ∧
    decode unitSerializer 24 .id
        (u64Bytes 9 ++ (u64Bytes 1 ++ ([7] ++
          (u64Bytes 2 ++ (u64Bytes 0 ++ ([] ++ [])))))) =
      ⟨.ok (some (9, none)), .id, u64Bytes 2 ++ (u64Bytes 0 ++ ([] ++ []))⟩ ∧
    decode unitSerializer 24 .id (u64Bytes 2 ++ (u64Bytes 0 ++ ([] ++ []))) =
      ⟨.ok (some (2, some ())), .id, []⟩ := by
  have h := deserialize_failure_isolation unitSerializer 24 9 1 [7]
    (u64Bytes 2 ++ (u64Bytes 0 ++ ([] ++ []))) (by decide) (by decide)
    (by decide) rfl rfl
  exact ⟨rfl, h.1, h.2 2 0 [] [] (by decide) (by decide) (by decide) rfl rfl⟩

/-- C6: concrete evaluation of the encode failure path.  With maximum 24 and
a message serializing to 25 bytes, `encode` fails with SizeExceeded, but the
destination buffer is NOT left clean: the 8 big-endian identifier bytes were
appended before the size check ran and remain in it.  A reader of the stream
would see an identifier with no length or payload, so the buffer contents do
corrupt the stream unless the caller discards the whole buffer. -/
theorem encode_size_exceeded_leaves_identifier :
    encode listSerializer 24 0 (List.replicate 25 0) [] =
      (.error (.tooBig 25 24), u64Bytes 0) ∧ u64Bytes 0 ≠ [] :=
  ⟨rfl, by decide⟩

/-- C7: encode has no error condition other than SizeExceeded: for every
identifier and every message whose serialized size is within the configured
maximum, `encode` succeeds and appends the frame (identifier, length, payload)
to the destination buffer. -/
theorem encode_within_max_succeeds (S : Serializer α) (max_payload_size i : Nat)
    (m : α) (buf : List Nat) (h : S.serializedSize m ≤ max_payload_size) :
    encode S max_payload_size i m buf =
      (.ok (), buf ++ u64Bytes i ++ u64Bytes (S.serializedSize m) ++
        S.serialize m) := by
  simp only [encode]
  rw [if_neg (by omega)]

/-- Witness for C7 at a concrete input: identifier `5`, a 2-byte message,
maximum 2, a non-empty initial buffer. -/
theorem encode_within_max_succeeds_witness :
    listSerializer.serializedSize [1, 2] ≤ 2 ∧
    encode listSerializer 2 5 [1, 2] [9] =
      (.ok (), [9] ++ u64Bytes 5 ++ u64Bytes 2 ++ [1, 2]) :=
  ⟨by decide, encode_within_max_succeeds listSerializer 2 5 [1, 2] [9]
    (by decide)⟩

/-- C8: for identifier `i` and a message of serialized size `L` within the
maximum, the bytes `encode` appends are exactly `16 + L` bytes: the 8-byte
big-endian `i` at offset 0, the 8-byte big-endian `L` at offset 8, and the
`L` serialized payload bytes at offset 16 — nothing else (no magic number,
version byte, or checksum). -/
theorem frame_layout (S : Serializer α) (max_payload_size i : Nat) (m : α)
    (buf : List Nat) (hsize : S.serializedSize m ≤ max_payload_size)
    (hcoh : (S.serialize m).length = S.serializedSize m) :
    encode S max_payload_size i m buf =
      (.ok (), buf ++ (u64Bytes i ++ u64Bytes (S.serializedSize m) ++
        S.serialize m)) ∧
    (u64Bytes i ++ u64Bytes (S.serializedSize m) ++ S.serialize m).length =
      16 + S.serializedSize m ∧
    (u64Bytes i ++ u64Bytes (S.serializedSize m) ++ S.serialize m).take 8 =
      u64Bytes i ∧
    ((u64Bytes i ++ u64Bytes (S.serializedSize m) ++ S.serialize m).drop 8).take 8 =
      u64Bytes (S.serializedSize m) ∧
    (u64Bytes i ++ u64Bytes (S.serializedSize m) ++ S.serialize m).drop 16 =
      S.serialize m := by
  have h8i : (u64Bytes i).length = 8 := rfl
  have h8L : (u64Bytes (S.serializedSize m)).length = 8 := rfl
  have h16 : (u64Bytes i ++ u64Bytes (S.serializedSize m)).length = 16 := by
    simp [List.length_append, h8i, h8L]
  refine ⟨?_, ?_, ?_, ?_, ?_⟩
  · simp only [encode]
    rw [if_neg (by omega)]
    simp [List.append_assoc]
  · simp only [List.length_append, h8i, h8L, hcoh]
  · rw [List.append_assoc, List.take_left' h8i]
  · rw [List.append_assoc, List.drop_left' h8i, List.take_left' h8L]
  · rw [List.drop_left' h16]

/-- Witness for C8 at a concrete input: identifier `5`, the 2-byte message
`[1, 2]`, maximum 2, empty initial buffer. -/
theorem frame_layout_witness :
    listSerializer.serializedSize [1, 2] ≤ 2 ∧
    encode listSerializer 2 5 [1, 2] [] =
      (.ok (), [] ++ (u64Bytes 5 ++ u64Bytes 2 ++ [1, 2])) ∧
    (u64Bytes 5 ++ u64Bytes 2 ++ [1, 2]).length = 16 + 2 :=
  ⟨by decide,
    (frame_layout listSerializer 2 5 [1, 2] [] (by decide) rfl).1,
    (frame_layout listSerializer 2 5 [1, 2] [] (by decide) rfl).2.1⟩

/-- C9: a single `decode` call returns at most one frame (the result type
carries zero or one) even when the buffer holds two complete frames: the call
returns the first frame and leaves the second frame's bytes untouched in the
buffer, and only a further `decode` call yields the second frame. -/
theorem one_frame_per_call (S : Serializer α) (max_payload_size : Nat)
    (i1 L1 i2 L2 : Nat) (p1 p2 : List Nat)
    (hi1 : i1 < 2 ^ 64) (hL1 : L1 < 2 ^ 64) (hm1 : L1 ≤ max_payload_size)
    (hp1 : p1.length = L1)
    (hi2 : i2 < 2 ^ 64) (hL2 : L2 < 2 ^ 64) (hm2 : L2 ≤ max_payload_size)
    (hp2 : p2.length = L2) :
    decode S max_payload_size .id
        (u64Bytes i1 ++ (u64Bytes L1 ++ (p1 ++
          (u64Bytes i2 ++ (u64Bytes L2 ++ p2))))) =
      ⟨.ok (some (i1, S.deserialize p1)), .id,
        u64Bytes i2 ++ (u64Bytes L2 ++ p2)⟩ ∧
    decode S max_payload_size .id (u64Bytes i2 ++ (u64Bytes L2 ++ p2)) =
      ⟨.ok (some (i2, S.deserialize p2)), .id, []⟩ := by
  constructor
  · exact decode_complete_frame S hi1 hL1 hm1 hp1
  · have h := @decode_complete_frame α S max_payload_size i2 L2 p2 []
      hi2 hL2 hm2 hp2
    simpa using h

/-- Witness for C9 at a concrete input: two back-to-back empty-payload frames
for identifiers `1` and `2`. -/
theorem one_frame_per_call_witness :
    decode unitSerializer 24 .id
        (u64Bytes 1 ++ (u64Bytes 0 ++ ([] ++ (u64Bytes 2 ++ (u64Bytes 0 ++ []))))) =
      ⟨.ok (some (1, some ())), .id, u64Bytes 2 ++ (u64Bytes 0 ++ [])⟩ ∧
    decode unitSerializer 24 .id (u64Bytes 2 ++ (u64Bytes 0 ++ [])) =
      ⟨.ok (some (2, some ())), .id, []⟩ :=
  one_frame_per_call unitSerializer 24 1 0 2 0 [] [] (by decide) (by decide)
    (by decide) rfl (by decide) (by decide) (by decide) rfl

/-- C10: the FrameTooLarge failure is not atomic.  When the declared length
`L` exceeds the maximum, the 8 identifier bytes and the 8 length bytes have
already been drained and the state is left as `Len { id }` carrying the parsed
identifier rather than reset to `Id`; a further `decode` call on the same
instance therefore parses the next 8 buffer bytes as a new length for that
stale identifier and can return a frame wrongly attributed to it. -/
theorem frame_too_large_nonatomic (S : Serializer α)
    (max_payload_size i L : Nat) (rest : List Nat)
    (hi : i < 2 ^ 64) (hL : L < 2 ^ 64) (hgt : L > max_payload_size) :
    decode S max_payload_size .id (u64Bytes i ++ (u64Bytes L ++ rest)) =
      ⟨.error (.tooBig L max_payload_size), .len i, rest⟩ ∧
    ∀ (L2 : Nat) (more : List Nat), L2 < 2 ^ 64 → L2 ≤ max_payload_size →
      more.length = L2 → rest = u64Bytes L2 ++ more →
      decode S max_payload_size (.len i) rest =
        ⟨.ok (some (i, S.deserialize more)), .id, []⟩ := by
  constructor
  · exact decode_too_large S hi hL hgt
  · intro L2 more hL2 hle hlen hrest
    subst hrest
    have h8 : (u64Bytes L2).length = 8 := rfl
    simp only [decode, decodeLen, List.length_append, h8]
    rw [if_neg (by omega), List.take_left' h8, List.drop_left' h8,
      readU64_u64Bytes hL2, if_neg (by omega)]
    simp only [decodePayload, hlen]
    rw [if_neg (by omega), ← hlen, List.take_length, List.drop_length]

/-- Witness for C10 at a concrete input: maximum 24, identifier `7` with
declared length 25, followed by 8 bytes encoding length 0 that the stale
`Len { 7 }` state consumes as a new length. -/
theorem frame_too_large_nonatomic_witness :
    decode unitSerializer 24 .id (u64Bytes 7 ++ (u64Bytes 25 ++ u64Bytes 0)) =
      ⟨.error (.tooBig 25 24), .len 7, u64Bytes 0⟩ ∧
    decode unitSerializer 24 (.len 7) (u64Bytes 0) =
      ⟨.ok (some (7, some ())), .id, []⟩ := by
  have h := frame_too_large_nonatomic unitSerializer 24 7 25 (u64Bytes 0)
    (by decide) (by decide) (by decide)
  exact ⟨h.1, by
    have h2 := h.2 0 [] (by decide) (by decide) rfl (by simp)
    simpa using h2⟩

end Tarpc
